import Mathlib

/-!
# Verification of the nana-memo backup import pipeline

Shallow embedding of the backup import/normalization pipeline of the
nana-memo note-taking app, together with proofs about its merge step,
format dispatch, strategy parsers and fallback behaviour.

The embedding mirrors:
* the merge logic of `proceedWithRestore` (src/src/Settings.tsx and
  src/src/App.tsx), which seeds a JavaScript `Map` with the current
  notes and folds the imported notes over it with a newest-wins rule;
* `parseMimiNoteBackup` (src/unnamed/part_004): decompression probe,
  SQLite header sniffing, heuristic table selection, row-to-note
  mapping, and the resilient text-extraction fallback;
* the JSON import branches of src/src/Settings.tsx, src/src/App.tsx and
  the older variant in src/unnamed/part_001 (legacy "variant B" schema);
* `parseDateString` from the database strategy in src/src/App.tsx.

JavaScript `Map` semantics are modelled by an association list where
`set` overwrites in place (keeping the original insertion position) and
appends new keys; `Array.from(map.values())` is the value projection.
External primitives (zlib inflate, the sql.js engine, `JSON.parse`,
`Date` parsing, `Math.random`-based id synthesis, `Date.now`) are taken
as parameters or small documented models, as the pipeline treats them as
library dependencies.
-/

namespace NanaMemo

/-- The canonical note record (type `Note` in src/src/App.tsx lines 17-26).
Timestamps are epoch milliseconds; the merge step only ever compares
`updatedAt`. -/
structure Note where
  id : String
  content : String
  createdAt : Int
  updatedAt : Int
  isPinned : Bool
  color : String
  font : String
  fontSize : String
deriving DecidableEq, Repr

/-! ## JavaScript `Map` model

`proceedWithRestore` builds a `Map<string, Note>`.  A JS `Map` keeps
insertion order; `set` on an existing key overwrites the value but keeps
the key's original position, and `set` on a fresh key appends. -/

/-- `Map.set`: overwrite in place if the key is present, else append. -/
def mapSet (m : List (String × Note)) (k : String) (v : Note) :
    List (String × Note) :=
  match m with
  | [] => [(k, v)]
  | (k', v') :: rest =>
    if k' = k then (k, v) :: rest else (k', v') :: mapSet rest k v

/-- `Map.get`: first (and, for well-formed maps, only) binding of a key. -/
def mapGet (m : List (String × Note)) (k : String) : Option Note :=
  match m with
  | [] => none
  | (k', v') :: rest => if k' = k then some v' else mapGet rest k

/-- Seeding loop: `for (const note of currentNotes) notesMap.set(note.id, note)`. -/
def seedMap (notes : List Note) : List (String × Note) :=
  notes.foldl (fun m n => mapSet m n.id n) []

/-- One iteration of the import loop of `proceedWithRestore`
(src/src/Settings.tsx lines 509-517): insert when absent, replace when
`importedNote.updatedAt >= existingNote.updatedAt`. -/
def mergeStep (m : List (String × Note)) (n : Note) : List (String × Note) :=
  match mapGet m n.id with
  | none => mapSet m n.id n
  | some existing =>
    if n.updatedAt ≥ existing.updatedAt then mapSet m n.id n else m

/-- The import loop folded over the whole imported list. -/
def mergeFold (m : List (String × Note)) (imported : List Note) :
    List (String × Note) :=
  imported.foldl mergeStep m

/-- The merge of `proceedWithRestore` (src/src/Settings.tsx lines 505-520,
src/src/App.tsx lines 1086-1101): seed a map with the current notes, fold
the imported notes with the newest-wins rule, return
`Array.from(notesMap.values())`. -/
def mergeNotes (currentNotes importedNotes : List Note) : List Note :=
  (mergeFold (seedMap currentNotes) importedNotes).map (·.2)

/-- Lookup of a note by id in a note list (the "mapping from id to note
record" view used to compare merge results). -/
def findNote (notes : List Note) (k : String) : Option Note :=
  notes.find? (fun n => n.id == k)

/-! ### Basic map lemmas -/

theorem mapGet_mapSet (m : List (String × Note)) (k k' : String) (v : Note) :
    mapGet (mapSet m k v) k' = if k = k' then some v else mapGet m k' := by
  induction m with
  | nil => simp [mapSet, mapGet]
  | cons p rest ih =>
    obtain ⟨k₀, v₀⟩ := p
    simp only [mapSet]
    by_cases h₀ : k₀ = k
    · subst h₀
      simp only [if_pos rfl]
      by_cases h : k₀ = k' <;> simp [mapGet, h]
    · simp only [if_neg h₀]
      by_cases h : k₀ = k'
      · subst h
        have hk : ¬ k = k₀ := fun hh => h₀ hh.symm
        simp [mapGet, hk]
      · simp [mapGet, h, ih]

/-- Keys of the association list. -/
def mapKeys (m : List (String × Note)) : List String := m.map Prod.fst

theorem mapKeys_nil : mapKeys [] = [] := rfl

theorem mapKeys_cons (p : String × Note) (m : List (String × Note)) :
    mapKeys (p :: m) = p.1 :: mapKeys m := rfl

theorem mapKeys_mapSet_mem (m : List (String × Note)) (k : String) (v : Note)
    (h : k ∈ mapKeys m) : mapKeys (mapSet m k v) = mapKeys m := by
  induction m with
  | nil => simp [mapKeys_nil] at h
  | cons p rest ih =>
    obtain ⟨k₀, v₀⟩ := p
    rw [mapKeys_cons] at h
    simp only [mapSet]
    by_cases h₀ : k₀ = k
    · subst h₀
      rw [if_pos rfl, mapKeys_cons, mapKeys_cons]
    · simp only [if_neg h₀]
      rw [mapKeys_cons, mapKeys_cons]
      have hmem : k ∈ mapKeys rest := by
        rcases List.mem_cons.mp h with h' | h'
        · exact absurd h'.symm h₀
        · exact h'
      rw [ih hmem]

theorem mapSet_append_of_not_mem (m : List (String × Note)) (k : String)
    (v : Note) (h : k ∉ mapKeys m) : mapSet m k v = m ++ [(k, v)] := by
  induction m with
  | nil => simp [mapSet]
  | cons p rest ih =>
    obtain ⟨k₀, v₀⟩ := p
    rw [mapKeys_cons] at h
    have h₀ : ¬ k₀ = k := fun hh =>
      h (List.mem_cons.mpr (Or.inl hh.symm))
    have hrest : k ∉ mapKeys rest := fun hh =>
      h (List.mem_cons.mpr (Or.inr hh))
    simp [mapSet, h₀, ih hrest]

theorem mapGet_eq_none_iff (m : List (String × Note)) (k : String) :
    mapGet m k = none ↔ k ∉ mapKeys m := by
  induction m with
  | nil => simp [mapGet, mapKeys_nil]
  | cons p rest ih =>
    obtain ⟨k₀, v₀⟩ := p
    rw [mapKeys_cons]
    simp only [mapGet]
    by_cases h₀ : k₀ = k
    · subst h₀; simp
    · have h₁ : ¬ k = k₀ := fun hh => h₀ hh.symm
      simp [h₀, ih, List.mem_cons, h₁]

/-! ### Per-key view of the merge

`mergeFold` acts independently on each id.  `stepOpt` is the effect of
one imported note on the binding of its own id. -/

/-- Effect of one imported note on its id's binding: insert when absent,
replace when `n.updatedAt >= existing.updatedAt`. -/
def stepOpt (acc : Option Note) (n : Note) : Option Note :=
  match acc with
  | none => some n
  | some existing =>
    if n.updatedAt ≥ existing.updatedAt then some n else some existing

theorem mapGet_mergeStep (m : List (String × Note)) (n : Note) (k : String) :
    mapGet (mergeStep m n) k =
      if n.id = k then stepOpt (mapGet m k) n else mapGet m k := by
  unfold mergeStep
  cases hg : mapGet m n.id with
  | none =>
    rw [mapGet_mapSet]
    by_cases h : n.id = k
    · subst h; simp [stepOpt, hg]
    · simp [h]
  | some ex =>
    dsimp only
    by_cases hup : n.updatedAt ≥ ex.updatedAt
    · rw [if_pos hup, mapGet_mapSet]
      by_cases h : n.id = k
      · subst h; simp [stepOpt, hg, hup]
      · simp [h]
    · rw [if_neg hup]
      by_cases h : n.id = k
      · subst h; simp [stepOpt, hg, hup]
      · simp [h]

theorem mapGet_mergeFold (I : List Note) (m : List (String × Note))
    (k : String) :
    mapGet (mergeFold m I) k =
      (I.filter (fun n => n.id == k)).foldl stepOpt (mapGet m k) := by
  induction I generalizing m with
  | nil => rfl
  | cons n t ih =>
    show mapGet (mergeFold (mergeStep m n) t) k = _
    rw [ih]
    by_cases h : n.id = k
    · rw [List.filter_cons_of_pos (by simpa using h), List.foldl_cons]
      rw [mapGet_mergeStep, if_pos h]
    · rw [List.filter_cons_of_neg (by simpa using h)]
      rw [mapGet_mergeStep, if_neg h]

/-- Seeding fold with an arbitrary starting map. -/
def setFold (m : List (String × Note)) (notes : List Note) :
    List (String × Note) :=
  notes.foldl (fun m n => mapSet m n.id n) m

theorem seedMap_eq_setFold (notes : List Note) :
    seedMap notes = setFold [] notes := rfl

theorem mapGet_setFold (L : List Note) (m : List (String × Note))
    (k : String) :
    mapGet (setFold m L) k =
      L.foldl (fun acc n => if n.id = k then some n else acc) (mapGet m k) := by
  induction L generalizing m with
  | nil => rfl
  | cons n t ih =>
    show mapGet (setFold (mapSet m n.id n) t) k = _
    rw [ih, List.foldl_cons, mapGet_mapSet]

/-- A fold that never fires keeps its accumulator. -/
theorem foldl_lastFind_no_sat (L : List Note) (k : String)
    (a : Option Note) (h : ∀ n ∈ L, n.id ≠ k) :
    L.foldl (fun acc n => if n.id = k then some n else acc) a = a := by
  induction L generalizing a with
  | nil => rfl
  | cons n t ih =>
    rw [List.foldl_cons, if_neg (h n (List.mem_cons_self n t))]
    exact ih a fun x hx => h x (List.mem_cons_of_mem n hx)

theorem foldl_lastFind_eq_find (L : List Note) (k : String)
    (hN : (L.map Note.id).Nodup) :
    L.foldl (fun acc n => if n.id = k then some n else acc) none =
      L.find? (fun n => n.id == k) := by
  induction L with
  | nil => rfl
  | cons n t ih =>
    rw [List.map_cons, List.nodup_cons] at hN
    by_cases h : n.id = k
    · rw [List.foldl_cons, if_pos h, List.find?_cons_of_pos _ (by simpa using h)]
      apply foldl_lastFind_no_sat
      intro x hx hxk
      exact hN.1 (List.mem_map.mpr ⟨x, hx, by rw [hxk]; exact h.symm⟩)
    · rw [List.foldl_cons, if_neg h, List.find?_cons_of_neg _ (by simpa using h)]
      exact ih hN.2

/-! ### Well-formedness of the note map

Every binding inserted by the merge has the form `(n.id, n)`, so values
carry their own keys, and keys stay `Nodup`. -/

/-- Every value in the map is stored under its own id. -/
def IdInv (m : List (String × Note)) : Prop := ∀ p ∈ m, p.2.id = p.1

theorem IdInv_nil : IdInv [] := by intro p hp; cases hp

theorem mem_mapSet (m : List (String × Note)) (k : String) (v : Note)
    (p : String × Note) (hp : p ∈ mapSet m k v) : p = (k, v) ∨ p ∈ m := by
  induction m with
  | nil =>
    simp [mapSet] at hp
    exact Or.inl hp
  | cons q rest ih =>
    obtain ⟨k₀, v₀⟩ := q
    by_cases h₀ : k₀ = k
    · rw [show mapSet ((k₀, v₀) :: rest) k v = (k, v) :: rest by
            simp [mapSet, h₀]] at hp
      rcases List.mem_cons.mp hp with h' | h'
      · exact Or.inl h'
      · exact Or.inr (List.mem_cons_of_mem _ h')
    · rw [show mapSet ((k₀, v₀) :: rest) k v
            = (k₀, v₀) :: mapSet rest k v by simp [mapSet, h₀]] at hp
      rcases List.mem_cons.mp hp with h' | h'
      · exact Or.inr (h' ▸ List.mem_cons_self _ _)
      · rcases ih h' with h'' | h''
        · exact Or.inl h''
        · exact Or.inr (List.mem_cons_of_mem _ h'')

theorem IdInv_mapSet (m : List (String × Note)) (n : Note)
    (h : IdInv m) : IdInv (mapSet m n.id n) := by
  intro p hp
  rcases mem_mapSet m n.id n p hp with h' | h'
  · subst h'; rfl
  · exact h p h'

theorem keysNodup_mapSet (m : List (String × Note)) (k : String) (v : Note)
    (h : (mapKeys m).Nodup) : (mapKeys (mapSet m k v)).Nodup := by
  by_cases hmem : k ∈ mapKeys m
  · rw [mapKeys_mapSet_mem m k v hmem]; exact h
  · rw [mapSet_append_of_not_mem m k v hmem]
    have : mapKeys (m ++ [(k, v)]) = mapKeys m ++ [k] := by
      simp [mapKeys]
    rw [this]
    exact List.Nodup.append h (List.nodup_singleton k)
      (by simpa [List.disjoint_singleton] using hmem)

theorem mergeStep_cases (m : List (String × Note)) (n : Note) :
    mergeStep m n = mapSet m n.id n ∨ mergeStep m n = m := by
  unfold mergeStep
  cases mapGet m n.id with
  | none => exact Or.inl rfl
  | some ex =>
    dsimp only
    by_cases hup : n.updatedAt ≥ ex.updatedAt
    · rw [if_pos hup]; exact Or.inl rfl
    · rw [if_neg hup]; exact Or.inr rfl

theorem IdInv_mergeStep (m : List (String × Note)) (n : Note)
    (h : IdInv m) : IdInv (mergeStep m n) := by
  rcases mergeStep_cases m n with h' | h' <;> rw [h']
  · exact IdInv_mapSet m n h
  · exact h

theorem keysNodup_mergeStep (m : List (String × Note)) (n : Note)
    (h : (mapKeys m).Nodup) : (mapKeys (mergeStep m n)).Nodup := by
  rcases mergeStep_cases m n with h' | h' <;> rw [h']
  · exact keysNodup_mapSet m n.id n h
  · exact h

theorem IdInv_mergeFold (I : List Note) (m : List (String × Note))
    (h : IdInv m) : IdInv (mergeFold m I) := by
  induction I generalizing m with
  | nil => exact h
  | cons n t ih => exact ih (mergeStep m n) (IdInv_mergeStep m n h)

theorem keysNodup_mergeFold (I : List Note) (m : List (String × Note))
    (h : (mapKeys m).Nodup) : (mapKeys (mergeFold m I)).Nodup := by
  induction I generalizing m with
  | nil => exact h
  | cons n t ih => exact ih (mergeStep m n) (keysNodup_mergeStep m n h)

theorem IdInv_setFold (L : List Note) (m : List (String × Note))
    (h : IdInv m) : IdInv (setFold m L) := by
  induction L generalizing m with
  | nil => exact h
  | cons n t ih => exact ih (mapSet m n.id n) (IdInv_mapSet m n h)

theorem keysNodup_setFold (L : List Note) (m : List (String × Note))
    (h : (mapKeys m).Nodup) : (mapKeys (setFold m L)).Nodup := by
  induction L generalizing m with
  | nil => exact h
  | cons n t ih => exact ih (mapSet m n.id n) (keysNodup_mapSet m n.id n h)

/-- On a map whose values carry their own keys, looking a note up among
the values is exactly `mapGet`. -/
theorem find?_values_eq_mapGet (m : List (String × Note)) (k : String)
    (h : IdInv m) :
    (m.map (·.2)).find? (fun v => v.id == k) = mapGet m k := by
  induction m with
  | nil => rfl
  | cons p rest ih =>
    obtain ⟨k₀, v₀⟩ := p
    have hid : v₀.id = k₀ := h (k₀, v₀) (List.mem_cons_self _ _)
    by_cases h₀ : k₀ = k
    · subst h₀
      rw [List.map_cons, List.find?_cons_of_pos _ (by simp [hid])]
      simp [mapGet]
    · rw [List.map_cons, List.find?_cons_of_neg _ (by simp [hid, h₀])]
      rw [show mapGet ((k₀, v₀) :: rest) k = mapGet rest k by
            simp [mapGet, h₀]]
      exact ih fun q hq => h q (List.mem_cons_of_mem _ hq)

theorem values_map_id (m : List (String × Note)) (h : IdInv m) :
    (m.map (·.2)).map Note.id = mapKeys m := by
  induction m with
  | nil => rfl
  | cons p rest ih =>
    obtain ⟨k₀, v₀⟩ := p
    have hid : v₀.id = k₀ := h (k₀, v₀) (List.mem_cons_self _ _)
    simp only [List.map_cons, mapKeys_cons, hid]
    rw [ih fun q hq => h q (List.mem_cons_of_mem _ hq)]

/-- Unconditional characterization of a merge result as a mapping: the
binding of a key is the last fold of the imported notes with that id
over the last current note with that id. -/
theorem findNote_mergeNotes (E I : List Note) (k : String) :
    findNote (mergeNotes E I) k =
      (I.filter (fun n => n.id == k)).foldl stepOpt
        (E.foldl (fun acc n => if n.id = k then some n else acc) none) := by
  unfold mergeNotes findNote
  rw [find?_values_eq_mapGet _ _
        (IdInv_mergeFold I (seedMap E) (IdInv_setFold E [] IdInv_nil)),
      mapGet_mergeFold, seedMap_eq_setFold, mapGet_setFold]
  rfl

/-! ### Idempotence of the per-key fold -/

theorem foldl_stepOpt_isSome_le (t : List Note) (v : Note) :
    ∃ w, t.foldl stepOpt (some v) = some w ∧ v.updatedAt ≤ w.updatedAt := by
  induction t generalizing v with
  | nil => exact ⟨v, rfl, le_refl _⟩
  | cons n t ih =>
    rw [List.foldl_cons]
    by_cases h : n.updatedAt ≥ v.updatedAt
    · rw [show stepOpt (some v) n = some n by simp [stepOpt, h]]
      obtain ⟨w, hw, hle⟩ := ih n
      exact ⟨w, hw, le_trans h hle⟩
    · rw [show stepOpt (some v) n = some v by simp [stepOpt, h]]
      exact ih v

theorem foldl_stepOpt_idem (t : List Note) (g : Option Note) :
    t.foldl stepOpt (t.foldl stepOpt g) = t.foldl stepOpt g := by
  induction t generalizing g with
  | nil => rfl
  | cons n t ih =>
    rw [List.foldl_cons, List.foldl_cons]
    obtain ⟨v₀, hv₀, hcase⟩ :
        ∃ v₀, stepOpt g n = some v₀ ∧
          (v₀ = n ∨ ∃ u, g = some u ∧ ¬ n.updatedAt ≥ u.updatedAt ∧ v₀ = u) := by
      cases g with
      | none => exact ⟨n, rfl, Or.inl rfl⟩
      | some u =>
        by_cases hu : n.updatedAt ≥ u.updatedAt
        · exact ⟨n, by simp [stepOpt, hu], Or.inl rfl⟩
        · exact ⟨u, by simp [stepOpt, hu], Or.inr ⟨u, rfl, hu, rfl⟩⟩
    rw [hv₀]
    obtain ⟨w, hw, hle⟩ := foldl_stepOpt_isSome_le t v₀
    rw [hw]
    by_cases hnw : n.updatedAt ≥ w.updatedAt
    · rw [show stepOpt (some w) n = some n by simp [stepOpt, hnw]]
      have hv₀n : v₀ = n := by
        rcases hcase with h | ⟨u, hg, hu, hvu⟩
        · exact h
        · exact absurd (le_trans (le_trans (le_of_eq (congrArg Note.updatedAt
            hvu.symm)) hle) hnw) hu
      rw [← hv₀n]
      exact hw
    · rw [show stepOpt (some w) n = some w by simp [stepOpt, hnw], ← hw, ih]

/-! ### Uniqueness helpers for id-distinct lists -/

theorem filter_id_nil (t : List Note) (k : String)
    (h : ∀ x ∈ t, x.id ≠ k) : t.filter (fun x => x.id == k) = [] := by
  induction t with
  | nil => rfl
  | cons n t ih =>
    rw [List.filter_cons_of_neg (by simpa using h n (List.mem_cons_self n t))]
    exact ih fun x hx => h x (List.mem_cons_of_mem n hx)

theorem filter_id_single (I : List Note) (n : Note)
    (hI : (I.map Note.id).Nodup) (hn : n ∈ I) :
    I.filter (fun x => x.id == n.id) = [n] := by
  induction I with
  | nil => cases hn
  | cons a t ih =>
    rw [List.map_cons, List.nodup_cons] at hI
    rcases List.mem_cons.mp hn with h | h
    · subst h
      rw [List.filter_cons_of_pos (by simp)]
      rw [filter_id_nil t n.id fun x hx hxk =>
        hI.1 (List.mem_map.mpr ⟨x, hx, hxk⟩)]
    · have hak : a.id ≠ n.id := fun hh =>
        hI.1 (hh ▸ List.mem_map.mpr ⟨n, h, rfl⟩)
      rw [List.filter_cons_of_neg (by simpa using hak)]
      exact ih hI.2 h

theorem find?_id_unique (E : List Note) (e : Note) (k : String)
    (hE : (E.map Note.id).Nodup) (he : e ∈ E) (hek : e.id = k) :
    E.find? (fun x => x.id == k) = some e := by
  induction E with
  | nil => cases he
  | cons a t ih =>
    rw [List.map_cons, List.nodup_cons] at hE
    rcases List.mem_cons.mp he with h | h
    · subst h
      exact List.find?_cons_of_pos _ (by simp [hek])
    · have hak : a.id ≠ k := fun hh =>
        hE.1 (by
          rw [hh, ← hek]
          exact List.mem_map.mpr ⟨e, h, rfl⟩)
      rw [List.find?_cons_of_neg _ (by simpa using hak)]
      exact ih hE.2 h

/-! ## Claim theorems: merge -/

/-- **C1** (newest-wins merge).  For an existing collection `E` and an
imported batch `I`, each with unique ids (the spec's collection/batch
invariants): an imported note whose id is absent from `E` ends up in the
merge result; when an existing note shares its id, the merge result maps
that id to the imported record exactly when
`imported.updatedAt >= existing.updatedAt` (ties adopt the import), and
to the unchanged existing record otherwise. -/
theorem merge_newest_wins (E I : List Note)
    (hE : (E.map Note.id).Nodup) (hI : (I.map Note.id).Nodup) :
    ∀ n ∈ I,
      ((∀ e ∈ E, e.id ≠ n.id) → findNote (mergeNotes E I) n.id = some n) ∧
      (∀ e ∈ E, e.id = n.id →
        (n.updatedAt ≥ e.updatedAt → findNote (mergeNotes E I) n.id = some n) ∧
        (¬ n.updatedAt ≥ e.updatedAt →
          findNote (mergeNotes E I) n.id = some e)) := by
  intro n hn
  have hchar := findNote_mergeNotes E I n.id
  rw [filter_id_single I n hI hn] at hchar
  constructor
  · intro habs
    rw [hchar, foldl_lastFind_no_sat E n.id none habs]
    rfl
  · intro e he heq
    have hEfind :
        E.foldl (fun acc x => if x.id = n.id then some x else acc) none
          = some e := by
      rw [foldl_lastFind_eq_find E n.id hE]
      exact find?_id_unique E e n.id hE he heq
    refine ⟨fun hup => ?_, fun hup => ?_⟩
    · rw [hchar, hEfind]
      simp [stepOpt, hup]
    · rw [hchar, hEfind]
      simp [stepOpt, hup]

/-- Concrete existing note used in the merge witnesses (the spec's
`{id: "x", updatedAt: 100}` example). -/
def sampleExisting : Note :=
  ⟨"x", "old content", 0, 100, false,
    "text-slate-800 dark:text-slate-200", "font-sans", "text-lg"⟩

/-- Concrete imported note with an older `updatedAt` than
`sampleExisting`. -/
def sampleImportedOld : Note :=
  ⟨"x", "imported content", 0, 50, false,
    "text-slate-800 dark:text-slate-200", "font-sans", "text-lg"⟩

/-- Witness for C1: merging `{id "x", updatedAt 50}` into
`{id "x", updatedAt 100}` keeps the existing record unchanged. -/
theorem merge_newest_wins_witness :
    findNote (mergeNotes [sampleExisting] [sampleImportedOld]) "x"
      = some sampleExisting := by
  have h := (merge_newest_wins [sampleExisting] [sampleImportedOld]
      (by decide) (by decide) sampleImportedOld
      (List.mem_cons_self _ _)).2 sampleExisting
      (List.mem_cons_self _ _) rfl
  exact h.2 (by decide)

/-- **C2** (merge idempotence).  For every existing collection `E` and
imported list `I`, re-merging the same batch does not change the result,
viewed as a mapping from id to note record (order ignored):
`merge(merge(E, I), I) == merge(E, I)` at every key. -/
theorem merge_idempotent (E I : List Note) (k : String) :
    findNote (mergeNotes (mergeNotes E I) I) k
      = findNote (mergeNotes E I) k := by
  have h1 := findNote_mergeNotes E I k
  have h2 := findNote_mergeNotes (mergeNotes E I) I k
  have hIdInv : IdInv (mergeFold (seedMap E) I) :=
    IdInv_mergeFold I _ (IdInv_setFold E [] IdInv_nil)
  have hKeys : (mapKeys (mergeFold (seedMap E) I)).Nodup := by
    refine keysNodup_mergeFold I _ (keysNodup_setFold E [] ?_)
    rw [mapKeys_nil]
    exact List.nodup_nil
  have hNodup : ((mergeNotes E I).map Note.id).Nodup := by
    unfold mergeNotes
    rw [values_map_id _ hIdInv]
    exact hKeys
  rw [h2, foldl_lastFind_eq_find _ _ hNodup]
  have h3 : List.find? (fun n => n.id == k) (mergeNotes E I)
      = findNote (mergeNotes E I) k := rfl
  rw [h3, h1, foldl_stepOpt_idem]

/-! ### Structural characterization of the merged list's order -/

/-- Outcome of the newest-wins rule on an existing record and the (at
most one) imported record sharing its id. -/
def applyImp (v : Note) (o : Option Note) : Note :=
  match o with
  | none => v
  | some n => if n.updatedAt ≥ v.updatedAt then n else v

theorem mapGet_of_mem_nodup (m : List (String × Note)) (p : String × Note)
    (hKeys : (mapKeys m).Nodup) (hp : p ∈ m) : mapGet m p.1 = some p.2 := by
  induction m with
  | nil => cases hp
  | cons q rest ih =>
    obtain ⟨k₀, v₀⟩ := q
    rw [mapKeys_cons] at hKeys
    rw [List.nodup_cons] at hKeys
    rcases List.mem_cons.mp hp with h | h
    · subst h
      simp [mapGet]
    · have hne : ¬ k₀ = p.1 := fun hh =>
        hKeys.1 (hh ▸ List.mem_map.mpr ⟨p, h, rfl⟩)
      rw [show mapGet ((k₀, v₀) :: rest) p.1 = mapGet rest p.1 by
            simp [mapGet, hne]]
      exact ih hKeys.2 h

theorem map_keyUpdate_id (m : List (String × Note)) (k : String) (v : Note)
    (h : ∀ p ∈ m, p.1 ≠ k) :
    m.map (fun p => if p.1 = k then (k, v) else p) = m := by
  induction m with
  | nil => rfl
  | cons q rest ih =>
    rw [List.map_cons, if_neg (h q (List.mem_cons_self _ _))]
    rw [ih fun p hp => h p (List.mem_cons_of_mem _ hp)]

theorem mapSet_eq_map_of_mem (m : List (String × Note)) (k : String)
    (v : Note) (hKeys : (mapKeys m).Nodup) (hmem : k ∈ mapKeys m) :
    mapSet m k v = m.map (fun p => if p.1 = k then (k, v) else p) := by
  induction m with
  | nil => cases hmem
  | cons q rest ih =>
    obtain ⟨k₀, v₀⟩ := q
    rw [mapKeys_cons] at hKeys hmem
    rw [List.nodup_cons] at hKeys
    by_cases h₀ : k₀ = k
    · subst h₀
      rw [show mapSet ((k₀, v₀) :: rest) k₀ v = (k₀, v) :: rest by
            simp [mapSet]]
      rw [List.map_cons, if_pos rfl]
      rw [map_keyUpdate_id rest k₀ v fun p hp hh =>
        hKeys.1 (hh ▸ List.mem_map.mpr ⟨p, hp, rfl⟩)]
    · have hmem' : k ∈ mapKeys rest := by
        rcases List.mem_cons.mp hmem with h | h
        · exact absurd h.symm h₀
        · exact h
      rw [show mapSet ((k₀, v₀) :: rest) k v
            = (k₀, v₀) :: mapSet rest k v by simp [mapSet, h₀]]
      rw [List.map_cons, if_neg h₀, ih hKeys.2 hmem']

theorem mapKeys_append (m l : List (String × Note)) :
    mapKeys (m ++ l) = mapKeys m ++ mapKeys l := by
  simp [mapKeys]

/-- Structure of the import fold on a key-distinct map: existing bindings
keep their positions (updated in place by the newest-wins rule), and
imported notes with fresh ids are appended in import order. -/
theorem mergeFold_structure (I : List Note) (m : List (String × Note))
    (hI : (I.map Note.id).Nodup) (hKeys : (mapKeys m).Nodup) :
    mergeFold m I =
      m.map (fun p => (p.1, applyImp p.2 (I.find? (fun n => n.id == p.1))))
        ++ (I.filter (fun n => (mapGet m n.id).isNone)).map
            (fun n => (n.id, n)) := by
  induction I generalizing m with
  | nil =>
    show m = m.map (fun p => (p.1, applyImp p.2 none)) ++ _
    simp [applyImp]
  | cons n t ih =>
    rw [List.map_cons, List.nodup_cons] at hI
    have hstep : mergeFold m (n :: t) = mergeFold (mergeStep m n) t := rfl
    have htail : ∀ x ∈ t, x.id ≠ n.id := fun x hx hh =>
      hI.1 (hh ▸ List.mem_map.mpr ⟨x, hx, rfl⟩)
    have htfind : t.find? (fun x => x.id == n.id) = none := by
      rw [List.find?_eq_none]
      intro x hx
      simpa using htail x hx
    cases hget : mapGet m n.id with
    | some ex =>
      have hmem : n.id ∈ mapKeys m := by
        by_contra hc
        rw [← mapGet_eq_none_iff] at hc
        rw [hget] at hc
        cases hc
      have hfilter :
          (n :: t).filter (fun x => (mapGet m x.id).isNone)
            = t.filter (fun x => (mapGet m x.id).isNone) := by
        rw [List.filter_cons_of_neg (by simp [hget])]
      have hmget' : ∀ x ∈ t, mapGet (mergeStep m n) x.id = mapGet m x.id := by
        intro x hx
        rcases mergeStep_cases m n with h' | h' <;> rw [h']
        rw [mapGet_mapSet, if_neg (fun hh => htail x hx hh.symm)]
      have hfilter' :
          t.filter (fun x => (mapGet (mergeStep m n) x.id).isNone)
            = t.filter (fun x => (mapGet m x.id).isNone) :=
        List.filter_congr fun x hx => by rw [hmget' x hx]
      have hkeys' : (mapKeys (mergeStep m n)).Nodup := keysNodup_mergeStep m n hKeys
      rw [hstep, ih (mergeStep m n) hI.2 hkeys', hfilter', hfilter]
      congr 1
      by_cases hup : n.updatedAt ≥ ex.updatedAt
      · have hset : mergeStep m n = mapSet m n.id n := by
          unfold mergeStep
          rw [hget]
          dsimp only
          rw [if_pos hup]
        rw [hset, mapSet_eq_map_of_mem m n.id n hKeys hmem, List.map_map]
        apply List.map_congr_left
        intro p hp
        by_cases hpk : p.1 = n.id
        · have hp2 : p.2 = ex := by
            have := mapGet_of_mem_nodup m p hKeys hp
            rw [hpk, hget] at this
            exact (Option.some_inj.mp this).symm
          have hfindc : (n :: t).find? (fun x => x.id == p.1) = some n := by
            rw [hpk]
            exact List.find?_cons_of_pos _ (by simp)
          have hfindt : t.find? (fun x => x.id == n.id) = none := htfind
          simp [Function.comp, hpk, hfindc, hfindt, applyImp, hp2, hup]
        · have hfindc : (n :: t).find? (fun x => x.id == p.1)
              = t.find? (fun x => x.id == p.1) :=
            List.find?_cons_of_neg _ (by
              simp only [beq_iff_eq]
              exact fun hh => hpk hh.symm)
          simp [Function.comp, if_neg hpk, hfindc]
      · have hset : mergeStep m n = m := by
          unfold mergeStep
          rw [hget]
          dsimp only
          rw [if_neg hup]
        rw [hset]
        apply List.map_congr_left
        intro p hp
        by_cases hpk : p.1 = n.id
        · have hp2 : p.2 = ex := by
            have := mapGet_of_mem_nodup m p hKeys hp
            rw [hpk, hget] at this
            exact (Option.some_inj.mp this).symm
          have hfindc : (n :: t).find? (fun x => x.id == p.1) = some n := by
            rw [hpk]
            exact List.find?_cons_of_pos _ (by simp)
          have hfindt : t.find? (fun x => x.id == p.1) = none := by
            rw [hpk]
            exact htfind
          simp [hfindc, hfindt, applyImp, hp2, hup]
        · have hfindc : (n :: t).find? (fun x => x.id == p.1)
              = t.find? (fun x => x.id == p.1) :=
            List.find?_cons_of_neg _ (by
              simp only [beq_iff_eq]
              exact fun hh => hpk hh.symm)
          rw [hfindc]
    | none =>
      have hnotmem : n.id ∉ mapKeys m := (mapGet_eq_none_iff m n.id).mp hget
      have hset : mergeStep m n = m ++ [(n.id, n)] := by
        unfold mergeStep
        rw [hget]
        dsimp only
        exact mapSet_append_of_not_mem m n.id n hnotmem
      have hkeys' : (mapKeys (m ++ [(n.id, n)])).Nodup := by
        rw [mapKeys_append]
        exact List.Nodup.append hKeys (List.nodup_singleton _)
          (by simpa [mapKeys, List.disjoint_singleton] using hnotmem)
      have hmget' : ∀ x ∈ t, mapGet (m ++ [(n.id, n)]) x.id = mapGet m x.id := by
        intro x hx
        rw [← mapSet_append_of_not_mem m n.id n hnotmem, mapGet_mapSet,
          if_neg (fun hh => htail x hx hh.symm)]
      rw [hstep, hset, ih (m ++ [(n.id, n)]) hI.2 hkeys']
      rw [List.filter_congr (fun x hx => by rw [hmget' x hx])]
      rw [List.map_append, List.append_assoc]
      rw [List.filter_cons_of_pos (by simp [hget]), List.map_cons]
      congr 1
      · apply List.map_congr_left
        intro p hp
        have hpk : ¬ p.1 = n.id := fun hh =>
          hnotmem (hh ▸ List.mem_map.mpr ⟨p, hp, rfl⟩)
        have hfindc : (n :: t).find? (fun x => x.id == p.1)
            = t.find? (fun x => x.id == p.1) :=
          List.find?_cons_of_neg _ (by
            simp only [beq_iff_eq]
            exact fun hh => hpk hh.symm)
        rw [hfindc]
      · simp [htfind, applyImp]

/-- Seeding over fresh keys appends bindings in order. -/
theorem setFold_fresh (E : List Note) (m : List (String × Note))
    (hE : (E.map Note.id).Nodup) (hfresh : ∀ e ∈ E, e.id ∉ mapKeys m) :
    setFold m E = m ++ E.map (fun e => (e.id, e)) := by
  induction E generalizing m with
  | nil => simp [setFold]
  | cons e t ih =>
    rw [List.map_cons, List.nodup_cons] at hE
    have hstep : setFold m (e :: t) = setFold (mapSet m e.id e) t := rfl
    rw [hstep, mapSet_append_of_not_mem m e.id e
      (hfresh e (List.mem_cons_self _ _))]
    rw [ih (m ++ [(e.id, e)]) hE.2 (fun x hx => by
      rw [mapKeys_append]
      intro hmem
      rcases List.mem_append.mp hmem with h | h
      · exact hfresh x (List.mem_cons_of_mem _ hx) h
      · rcases List.mem_singleton.mp (by simpa [mapKeys] using h) with h'
        exact hE.1 (h' ▸ List.mem_map.mpr ⟨x, hx, rfl⟩))]
    rw [List.map_cons, List.append_assoc]
    rfl

theorem seedMap_eq (E : List Note) (hE : (E.map Note.id).Nodup) :
    seedMap E = E.map (fun e => (e.id, e)) := by
  rw [seedMap_eq_setFold, setFold_fresh E [] hE (by simp [mapKeys_nil]),
    List.nil_append]

theorem mapGet_seed_isNone (E : List Note) (k : String) :
    (mapGet (E.map (fun e => (e.id, e))) k).isNone
      = E.all (fun e => !(e.id == k)) := by
  induction E with
  | nil => rfl
  | cons e t ih =>
    rw [List.map_cons, List.all_cons]
    by_cases h : e.id = k
    · rw [show mapGet ((e.id, e) :: t.map (fun e => (e.id, e))) k = some e by
          simp [mapGet, h]]
      simp [h]
    · rw [show mapGet ((e.id, e) :: t.map (fun e => (e.id, e))) k
            = mapGet (t.map (fun e => (e.id, e))) k by simp [mapGet, h]]
      simp [h, ih]

/-- **C10** (deterministic merge order).  With id-unique inputs, the
merged list is exactly: the existing notes in their original order (each
replaced in place by an imported record when the newest-wins rule adopts
it), followed by the imported notes whose ids are new, in import order. -/
theorem merge_order (E I : List Note)
    (hE : (E.map Note.id).Nodup) (hI : (I.map Note.id).Nodup) :
    mergeNotes E I =
      E.map (fun e => applyImp e (I.find? (fun n => n.id == e.id)))
        ++ I.filter (fun n => E.all (fun e => !(e.id == n.id))) := by
  unfold mergeNotes
  rw [seedMap_eq E hE]
  have hkeys : (mapKeys (E.map (fun e => (e.id, e)))).Nodup := by
    have : mapKeys (E.map (fun e => (e.id, e))) = E.map Note.id := by
      simp [mapKeys, Function.comp]
    rw [this]
    exact hE
  rw [mergeFold_structure I _ hI hkeys]
  rw [List.map_append]
  congr 1
  · rw [List.map_map, List.map_map]
    apply List.map_congr_left
    intro e _
    rfl
  · rw [List.map_map]
    rw [List.filter_congr (fun x _ => by rw [mapGet_seed_isNone])]
    have hcomp : ((fun x : String × Note => x.2) ∘ fun n : Note => (n.id, n))
        = id := rfl
    rw [hcomp, List.map_id]

/-- Fresh imported note (id distinct from `sampleExisting`) for the
order witness. -/
def sampleFresh : Note :=
  ⟨"y", "fresh content", 10, 10, false,
    "text-slate-800 dark:text-slate-200", "font-sans", "text-lg"⟩

/-- Witness for C10: merging a fresh-id note keeps the existing note
first and appends the new note. -/
theorem merge_order_witness :
    mergeNotes [sampleExisting] [sampleFresh]
      = [sampleExisting, sampleFresh] := by
  rw [merge_order [sampleExisting] [sampleFresh] (by decide) (by decide)]
  rfl

/-! ## Character-list models of JS string library primitives

The core `String` functions (`toLower`, `endsWith`, `trim`, `splitOn`)
are defined by well-founded recursion over byte positions and do not
reduce definitionally; these character-list equivalents do, so concrete
runs evaluate. -/

/-- `s.toLowerCase()`. -/
def strToLower (s : String) : String := String.mk (s.toList.map Char.toLower)

/-- `s.endsWith(post)`. -/
def strEndsWith (s post : String) : Bool :=
  let l := s.toList
  let p := post.toList
  decide (p.length ≤ l.length) && (l.drop (l.length - p.length) == p)

/-- JS regex `\s` on the characters this pipeline can meet. -/
def isJsWs (c : Char) : Bool :=
  c == ' ' || c == '\t' || c == '\n' || c == '\r' ||
    c == '\x0b' || c == '\x0c'

/-- Strip leading/trailing whitespace characters. -/
def jsTrimAux (cs : List Char) : List Char :=
  ((cs.dropWhile isJsWs).reverse.dropWhile isJsWs).reverse

/-- JS `String.prototype.trim` on the whitespace this pipeline meets. -/
def jsTrim (s : String) : String := String.mk (jsTrimAux s.toList)

/-! ## The backup parser `parseMimiNoteBackup` (src/unnamed/part_004)

The parser works on a byte buffer (modelled as `List Nat`, one entry per
byte).  External primitives are parameters: `inflate` (pako), `openDb`
(the sql.js engine), `dp` (the JS `Date` string parser, `none` ≙ an
invalid date / `NaN`), `synthId` (the `String(createdAt + Math.random())`
id synthesis, indexed by row), and `now` / `nowFn` (`Date.now()`). -/

/-- Epoch-millisecond result of a JS number slot: `none` models `NaN`. -/
abbrev JsNumber := Option Int

/-- A cell value returned by the sql.js engine (`null`, integer, or
text; this model also uses `nullV` for a missing column, i.e. JS
`undefined` — both are falsy and neither is `=== 1`). -/
inductive SqlValue where
  | nullV : SqlValue
  | intV : Int → SqlValue
  | textV : String → SqlValue
deriving DecidableEq, Repr

/-- JS truthiness of a cell value (`undefined`/`null`, `0` and `""` are
falsy). -/
def sqlTruthy : SqlValue → Bool
  | .nullV => false
  | .intV i => i != 0
  | .textV s => s != ""

/-- JS `String(...)` on a cell value (only ever applied to truthy values
or with a `""` fallback in the source). -/
def jsStringOfSql : SqlValue → String
  | .nullV => "null"
  | .intV i => toString i
  | .textV s => s

/-- `new Date(v).getTime()` on a cell value: numbers are already epoch
milliseconds, strings go through the external date parser `dp`,
`new Date(null)` is epoch 0.  `none` models `NaN`. -/
def jsDateGetTime (dp : String → Option Int) : SqlValue → JsNumber
  | .nullV => some 0
  | .intV i => some i
  | .textV s => dp s

/-- The note record produced by the import pipeline.  JS numbers can be
`NaN`, so the timestamps are `Option Int` (`none` ≙ `NaN`). -/
structure JsNote where
  id : String
  content : String
  createdAt : JsNumber
  updatedAt : JsNumber
  isPinned : Bool
  color : String
  font : String
  fontSize : String
deriving DecidableEq, Repr

/-- The row object built by `columns.forEach((col, i) => obj[col] = row[i])`:
later assignments win, a column that is absent reads as `undefined`
(modelled by `nullV`). -/
def rowLookup (cols : List String) (row : List SqlValue) (name : String) :
    SqlValue :=
  match (cols.zip row).reverse.find? (fun p => p.1 == name) with
  | some p => p.2
  | none => .nullV

/-- Row-to-note mapping of `parseMimiNoteBackup`
(src/unnamed/part_004 lines 64-83). -/
def mimiRowToNote (dp : String → Option Int) (now : Int)
    (synthId : Nat → JsNumber → String) (rowIdx : Nat)
    (cols : List String) (row : List SqlValue) : JsNote :=
  let creation := rowLookup cols row "creation_date"
  let update := rowLookup cols row "update_date"
  let createdAt : JsNumber :=
    if sqlTruthy creation then jsDateGetTime dp creation else some now
  let updatedAt : JsNumber :=
    if sqlTruthy update then jsDateGetTime dp update else createdAt
  let idVal := rowLookup cols row "_id"
  let textVal := rowLookup cols row "text"
  let titleVal := rowLookup cols row "title"
  let earVal := rowLookup cols row "ear"
  { id := if sqlTruthy idVal then jsStringOfSql idVal
          else synthId rowIdx createdAt
    content := if sqlTruthy textVal then jsStringOfSql textVal
               else if sqlTruthy titleVal then jsStringOfSql titleVal
               else ""
    createdAt := createdAt
    updatedAt := updatedAt
    isPinned := earVal == SqlValue.intV 1
    color := "text-slate-800 dark:text-slate-200"
    font := "font-sans"
    fontSize := "text-lg" }

/-- A table of the opened database, as sql.js reports it. -/
structure SqlTable where
  columns : List String
  rows : List (List SqlValue)
deriving Repr

/-- An opened database: named tables in `sqlite_master` order. -/
structure SqlDb where
  tables : List (String × SqlTable)
deriving Repr

/-- `t.toUpperCase()` (character-list implementation of the library
primitive). -/
def strToUpper (s : String) : String := String.mk (s.toList.map Char.toUpper)

/-- Character-level prefix test. -/
def listStartsWithChars : List Char → List Char → Bool
  | [], _ => true
  | _ :: _, [] => false
  | p :: ps, c :: cs => p == c && listStartsWithChars ps cs

/-- Character-level infix test. -/
def listHasInfix : List Char → List Char → Bool
  | [], needle => needle.isEmpty
  | h :: t, needle =>
    listStartsWithChars needle (h :: t) || listHasInfix t needle

/-- `s.includes(sub)`. -/
def containsSubstring (s sub : String) : Bool :=
  listHasInfix s.toList sub.toList

/-- Heuristic table choice (src/unnamed/part_004 lines 52-55):
exact (upper-cased) `NOTE_TB`, else a name containing `note`, else the
first table. -/
def selectTableName (tables : List String) : Option String :=
  match tables.find? (fun t => strToUpper t == "NOTE_TB") with
  | some t => some t
  | none =>
    match tables.find? (fun t => containsSubstring (strToLower t) "note") with
    | some t => some t
    | none => tables.head?

/-- Database strategy body after a successful open
(src/unnamed/part_004 lines 46-85): enumerate tables, pick one, read all
rows, build a note per row; an empty table yields `[]`, not an error. -/
def dbToNotes (dp : String → Option Int) (now : Int)
    (synthId : Nat → JsNumber → String) (db : SqlDb) :
    Except String (List JsNote) :=
  let tables := db.tables.map (·.1)
  if tables.isEmpty then .error "DB内にテーブルが見つかりません。"
  else
    match selectTableName tables with
    | none => .error "メモのテーブルが見つかりません。"
    | some tn =>
      if tn = "" then .error "メモのテーブルが見つかりません。"
      else
        let tbl := ((db.tables.find? (fun p => p.1 == tn)).map (·.2)).getD
          ⟨[], []⟩
        if tbl.rows.isEmpty then .ok []
        else .ok (tbl.rows.enum.map
          (fun p => mimiRowToNote dp now synthId p.1 tbl.columns p.2))

/-- Byte-level check that `pat` begins `bs`. -/
def listStartsWith : List Nat → List Nat → Bool
  | [], _ => true
  | _ :: _, [] => false
  | p :: ps, b :: bs => p == b && listStartsWith ps bs

/-- The ASCII bytes of the SQLite magic string. -/
def sqliteHeaderBytes : List Nat := "SQLite format 3".toList.map Char.toNat

/-- `new TextDecoder().decode(bytes.slice(0, 16)).startsWith("SQLite format 3")`
(src/unnamed/part_004 lines 34-35).  The magic string is pure ASCII, so
the check is a byte-prefix test on the first 16 bytes. -/
def isSqliteHeader (bytes : List Nat) : Bool :=
  listStartsWith sqliteHeaderBytes (bytes.take 16)

/-- The SQLite leg of the parser (src/unnamed/part_004 lines 33-88):
header sniff, then the external engine open, then `dbToNotes`. -/
def sqliteAttempt (openDb : List Nat → Except String SqlDb)
    (dp : String → Option Int) (now : Int)
    (synthId : Nat → JsNumber → String) (bytes : List Nat) :
    Except String (List JsNote) :=
  if isSqliteHeader bytes then
    match openDb bytes with
    | .error e => .error e
    | .ok db => dbToNotes dp now synthId db
  else .error "SQLiteヘッダーが見つかりません。"

/-- Decompression probe (src/unnamed/part_004 lines 17-30):
attempt zlib inflate only when the buffer is longer than 2 bytes and
starts with `0x78`; a failed inflate keeps the original bytes. -/
def decompressProbe (inflate : List Nat → Option (List Nat))
    (bytes : List Nat) : List Nat :=
  if bytes.length > 2 ∧ bytes.head? = some 0x78 then
    match inflate bytes with
    | some inflated => inflated
    | none => bytes
  else bytes

/-- Modelled external primitive: `TextDecoder("utf-8", {fatal:false})`.
Faithful on ASCII bytes (< 0x80); other bytes become the replacement
character, as a lossy decoder never throws. -/
def utf8DecodeModel (bytes : List Nat) : String :=
  String.mk (bytes.map fun b => if b < 128 then Char.ofNat b else '�')

/-- ASCII bytes of a string; used to build concrete buffers in witnesses
(inverse of `utf8DecodeModel` on ASCII content). -/
def strBytes (s : String) : List Nat := s.toList.map Char.toNat

/-! ### Text-extraction fallback (src/unnamed/part_004 lines 94-127)

The source scans the lossily-decoded text with the regex
`/"text"\s*:\s*"((?:\\"|[^"])*)"/g`, unescapes each capture with
`JSON.parse`, and keeps non-whitespace fragments. -/

/-- Consume `\s*`. -/
def skipWs : List Char → List Char
  | [] => []
  | c :: cs => if isJsWs c then skipWs cs else c :: cs

/-- Greedy match of `((?:\\"|[^"])*)"` with the regex engine's
backtracking: prefer consuming `\"` as an escape pair; if no closing
quote is found on that path, reconsume the backslash as `[^"]` and use
the quote as the closing delimiter.  Returns the capture and the text
after the closing quote. -/
def starMatch : List Char → Option (List Char × List Char)
  | [] => none
  | '"' :: rest => some ([], rest)
  | '\\' :: '"' :: rest =>
    (match starMatch rest with
     | some (cap, r) => some ('\\' :: '"' :: cap, r)
     | none => some (['\\'], rest))
  | c :: rest =>
    (match starMatch rest with
     | some (cap, r) => some (c :: cap, r)
     | none => none)

/-- Try the whole pattern `"text"\s*:\s*"((?:\\"|[^"])*)"` at the start
of the text. -/
def tryMatchAt : List Char → Option (List Char × List Char)
  | '"' :: 't' :: 'e' :: 'x' :: 't' :: '"' :: rest =>
    (match skipWs rest with
     | ':' :: r2 =>
       (match skipWs r2 with
        | '"' :: r4 => starMatch r4
        | _ => none)
     | _ => none)
  | _ => none

/-- All (non-overlapping, leftmost) captures, as `regex.exec` in a loop
finds them.  Each successful match strictly shrinks the text, so a fuel
of `length + 1` never runs out. -/
def scanAll : Nat → List Char → List (List Char)
  | 0, _ => []
  | _ + 1, [] => []
  | fuel + 1, c :: rest =>
    match tryMatchAt (c :: rest) with
    | some (cap, after) => cap :: scanAll fuel after
    | none => scanAll fuel rest

/-- Hex digit value for `\uXXXX` escapes. -/
def hexVal (c : Char) : Option Nat :=
  if '0' ≤ c ∧ c ≤ '9' then some (c.toNat - 48)
  else if 'a' ≤ c ∧ c ≤ 'f' then some (c.toNat - 87)
  else if 'A' ≤ c ∧ c ≤ 'F' then some (c.toNat - 55)
  else none

/-- `JSON.parse('"' + cap + '"')` (src/unnamed/part_004 line 105):
JSON string-body unescaping; `none` models the thrown `SyntaxError`
(invalid escape, raw control character, or a stray quote). -/
def jsonUnescapeChars : List Char → Option (List Char)
  | [] => some []
  | '\\' :: esc =>
    (match esc with
     | '"' :: rest => (jsonUnescapeChars rest).map ('"' :: ·)
     | '\\' :: rest => (jsonUnescapeChars rest).map ('\\' :: ·)
     | '/' :: rest => (jsonUnescapeChars rest).map ('/' :: ·)
     | 'b' :: rest => (jsonUnescapeChars rest).map ('\x08' :: ·)
     | 'f' :: rest => (jsonUnescapeChars rest).map ('\x0c' :: ·)
     | 'n' :: rest => (jsonUnescapeChars rest).map ('\n' :: ·)
     | 'r' :: rest => (jsonUnescapeChars rest).map ('\x0d' :: ·)
     | 't' :: rest => (jsonUnescapeChars rest).map ('\t' :: ·)
     | 'u' :: h1 :: h2 :: h3 :: h4 :: rest =>
       (match hexVal h1, hexVal h2, hexVal h3, hexVal h4 with
        | some a, some b, some c, some d =>
          (jsonUnescapeChars rest).map
            (Char.ofNat (((a * 16 + b) * 16 + c) * 16 + d) :: ·)
        | _, _, _, _ => none)
     | _ => none)
  | c :: rest =>
    if c = '"' ∨ c.toNat < 0x20 then none
    else (jsonUnescapeChars rest).map (c :: ·)

/-! ### Decimal representation of `Date.now()`-based ids

Modelled external primitive: JS `String(n)` on a nonnegative integer
number is its decimal digit string. -/

/-- The decimal digit character of `n % 10`-sized values. -/
def digitChar : Nat → Char
  | 0 => '0' | 1 => '1' | 2 => '2' | 3 => '3' | 4 => '4'
  | 5 => '5' | 6 => '6' | 7 => '7' | 8 => '8' | _ => '9'

/-- Most-significant-first digit accumulator. -/
def natDecimalAux (n : Nat) (acc : List Char) : List Char :=
  if h : n < 10 then digitChar n :: acc
  else natDecimalAux (n / 10) (digitChar (n % 10) :: acc)
termination_by n
decreasing_by exact Nat.div_lt_self (by omega) (by omega)

/-- JS `String(n)` for a nonnegative integer `n`. -/
def natDecimal (n : Nat) : String := String.mk (natDecimalAux n [])

/-- One fallback note (src/unnamed/part_004 lines 107-117):
`now = Date.now() + i++` feeds the id and both timestamps. -/
def mimiTextNote (now : Nat) (content : String) : JsNote :=
  { id := natDecimal now
    content := content
    createdAt := some (now : Int)
    updatedAt := some (now : Int)
    isPinned := false
    color := "text-slate-800 dark:text-slate-200"
    font := "font-sans"
    fontSize := "text-lg" }

/-- The `while ((match = regex.exec(text)) !== null)` loop
(src/unnamed/part_004 lines 103-122): unescape each capture, keep it only
when non-empty after trimming, and increment the counter `i` only for
kept fragments.  `nowFn i` is the value of `Date.now()` at the `i`-th
kept fragment. -/
def textNotesLoop (nowFn : Nat → Nat) :
    List (List Char) → Nat → List JsNote
  | [], _ => []
  | cap :: rest, i =>
    match jsonUnescapeChars cap with
    | some content =>
      let s := String.mk content
      if s ≠ "" ∧ jsTrim s ≠ "" then
        mimiTextNote (nowFn i + i) s :: textNotesLoop nowFn rest (i + 1)
      else textNotesLoop nowFn rest i
    | none => textNotesLoop nowFn rest i

/-- The whole text-extraction strategy on decoded text. -/
def textExtraction (nowFn : Nat → Nat) (text : String) : List JsNote :=
  textNotesLoop nowFn (scanAll (text.toList.length + 1) text.toList) 0

/-- `parseMimiNoteBackup` (src/unnamed/part_004 lines 6-133): empty-file
check, decompression probe, SQLite attempt, and on any SQLite-leg error
the text-extraction fallback **on the original buffer**; zero recovered
fragments propagate a combined error naming the SQLite error. -/
def parseMimiNoteBackup (inflate : List Nat → Option (List Nat))
    (openDb : List Nat → Except String SqlDb)
    (dp : String → Option Int) (now : Int)
    (synthId : Nat → JsNumber → String) (nowFn : Nat → Nat)
    (buffer : List Nat) : Except String (List JsNote) :=
  if buffer.length = 0 then .error "ファイルが空です。"
  else
    let bytes := decompressProbe inflate buffer
    match sqliteAttempt openDb dp now synthId bytes with
    | .ok notes => .ok notes
    | .error e =>
      let extracted := textExtraction nowFn (utf8DecodeModel buffer)
      if extracted.length > 0 then .ok extracted
      else .error ("DBの解析に失敗しました: " ++ e)

/-! ## JSON restore branches

JS values reachable from `JSON.parse` output, plus `undefinedV` for the
result of reading an absent property. -/

inductive Json where
  | null : Json
  | undefinedV : Json
  | boolean : Bool → Json
  | num : Int → Json
  | str : String → Json
  | arr : List Json → Json
  | obj : List (String × Json) → Json
deriving Repr

/-- JS truthiness. -/
def jsTruthy : Json → Bool
  | .null => false
  | .undefinedV => false
  | .boolean b => b
  | .num n => n != 0
  | .str s => s != ""
  | .arr _ => true
  | .obj _ => true

/-- Property read `v[k]`: `TypeError` on `null`/`undefined`, the last
binding on objects (duplicate JSON keys: last wins), `undefined`
elsewhere. -/
def jsGet : Json → String → Except String Json
  | .null, _ => .error "TypeError"
  | .undefinedV, _ => .error "TypeError"
  | .obj fields, k =>
    .ok (match fields.reverse.find? (fun p => p.1 == k) with
         | some p => p.2
         | none => .undefinedV)
  | _, _ => .ok .undefinedV

/-- The `k in v` operator: key test on objects, `false` on arrays (none
of the probed keys is an index or array property), `TypeError` on
primitives. -/
def jsHasKey : Json → String → Except String Bool
  | .obj fields, k => .ok (fields.any (fun p => p.1 == k))
  | .arr _, _ => .ok false
  | _, _ => .error "TypeError"

/-- JS `String(v)` on the values this pipeline feeds it (primitives and
parse output; aggregate cases are simplified). -/
def jsStringOfJson : Json → String
  | .null => "null"
  | .undefinedV => "undefined"
  | .boolean b => if b then "true" else "false"
  | .num n => toString n
  | .str s => s
  | .arr _ => ""
  | .obj _ => "[object Object]"

/-- `new Date(v).getTime()` on a JS value (`none` ≙ `NaN`); strings go
through the external date-parsing primitive `dp`. -/
def jsDateOfJson (dp : String → Option Int) : Json → JsNumber
  | .num n => some n
  | .str s => dp s
  | .boolean b => some (if b then 1 else 0)
  | .null => some 0
  | .undefinedV => none
  | .arr _ => none
  | .obj _ => none

/-- JS `String(x)` for a number slot that can be `NaN`. -/
def jsNumberToString : JsNumber → String
  | some t => toString t
  | none => "NaN"

/-- A note object built by a JSON restore branch.  Fields hold raw JS
values: the current branches do not coerce `id`/`content`/timestamps, so
whatever the file contained flows through. -/
structure RawNote where
  id : Json
  content : Json
  createdAt : Json
  updatedAt : Json
  isPinned : Json
  color : Json
  font : Json
  fontSize : Json
deriving Repr

/-- Element mapping of the Settings.tsx `.json` branch
(src/src/Settings.tsx lines 485-494): every field falls back to a
default when falsy; a missing id is synthesized from
`String(Date.now() + Math.random())` (external, parameter
`synthJsonId`). -/
def settingsMapElem (synthJsonId : Nat → String) (now : Int) (idx : Nat)
    (n : Json) : Except String RawNote := do
  let idv ← jsGet n "id"
  let cv ← jsGet n "content"
  let ca ← jsGet n "createdAt"
  let ua ← jsGet n "updatedAt"
  let pv ← jsGet n "isPinned"
  let col ← jsGet n "color"
  let fo ← jsGet n "font"
  let fs ← jsGet n "fontSize"
  .ok { id := if jsTruthy idv then idv else .str (synthJsonId idx)
        content := if jsTruthy cv then cv else .str ""
        createdAt := if jsTruthy ca then ca else .num now
        updatedAt := if jsTruthy ua then ua else .num now
        isPinned := if jsTruthy pv then pv else .boolean false
        color := if jsTruthy col then col
                 else .str "text-slate-800 dark:text-slate-200"
        font := if jsTruthy fo then fo else .str "font-sans"
        fontSize := if jsTruthy fs then fs else .str "text-lg" }

/-- The Settings.tsx `.json` branch (src/src/Settings.tsx lines
479-498): accept an array that is empty or whose first element has a
`content` key; otherwise `無効なJSONファイル形式です。`. -/
def settingsJsonImport (synthJsonId : Nat → String) (now : Int)
    (j : Json) : Except String (List RawNote) :=
  match j with
  | .arr [] => ([] : List (Nat × Json)).mapM
      (fun p => settingsMapElem synthJsonId now p.1 p.2)
  | .arr (first :: rest) => do
    let hasContent ← jsHasKey first "content"
    if hasContent then
      ((first :: rest).enum).mapM
        (fun p => settingsMapElem synthJsonId now p.1 p.2)
    else .error "無効なJSONファイル形式です。"
  | _ => .error "無効なJSONファイル形式です。"

/-- Element mapping shared by the src/src/App.tsx `.json` branch
(spread `{...n, isPinned: n.isPinned || false, ...}`, lines 1066-1072)
and variant A of the older restore (src/unnamed/part_001 lines 748-757):
id/content/timestamps flow through raw, presentation fields default when
falsy. -/
def restoreMapA (n : Json) : Except String RawNote := do
  let idv ← jsGet n "id"
  let cv ← jsGet n "content"
  let ca ← jsGet n "createdAt"
  let ua ← jsGet n "updatedAt"
  let pv ← jsGet n "isPinned"
  let col ← jsGet n "color"
  let fo ← jsGet n "font"
  let fs ← jsGet n "fontSize"
  .ok { id := idv
        content := cv
        createdAt := ca
        updatedAt := ua
        isPinned := if jsTruthy pv then pv else .boolean false
        color := if jsTruthy col then col
                 else .str "text-slate-800 dark:text-slate-200"
        font := if jsTruthy fo then fo else .str "font-sans"
        fontSize := if jsTruthy fs then fs else .str "text-lg" }

/-- The src/src/App.tsx `.json` branch (lines 1062-1078): requires a
NON-empty array whose first element has a `content` key; an empty array
is rejected as `無効なJSONファイル形式です。`. -/
def appJsonImport (j : Json) : Except String (List RawNote) :=
  match j with
  | .arr (first :: rest) => do
    let hasContent ← jsHasKey first "content"
    if hasContent then (first :: rest).mapM restoreMapA
    else .error "無効なJSONファイル形式です。"
  | _ => .error "無効なJSONファイル形式です。"

/-- Variant B mapping of the older restore (src/unnamed/part_001 lines
759-776): `note_id → id` (falling back to the *raw* parsed
`created_at` value, `String(NaN)` included), `text → content`,
`pinned → isPinned` via `Boolean(...)`, `isNaN` timestamps fall back to
`Date.now() - index`, presentation fields forced to defaults. -/
def part001MapB (dp : String → Option Int) (now : Int) (index : Nat)
    (n : Json) : Except String RawNote := do
  let created_at ← jsGet n "created_at"
  let updated_at ← jsGet n "updated_at"
  let noteIdv ← jsGet n "note_id"
  let textv ← jsGet n "text"
  let pinnedv ← jsGet n "pinned"
  let createdAt : JsNumber :=
    if jsTruthy created_at then jsDateOfJson dp created_at
    else some (now - index)
  let updatedAt : JsNumber :=
    if jsTruthy updated_at then jsDateOfJson dp updated_at
    else some (now - index)
  let createdFinal : Int :=
    match createdAt with
    | some t => t
    | none => now - index
  let updatedFinal : Int :=
    match updatedAt with
    | some t => t
    | none => now - index
  .ok { id := .str (if jsTruthy noteIdv then jsStringOfJson noteIdv
                    else jsNumberToString createdAt)
        content := .str (if jsTruthy textv then jsStringOfJson textv
                         else "")
        createdAt := .num createdFinal
        updatedAt := .num updatedFinal
        isPinned := .boolean (jsTruthy pinnedv)
        color := .str "text-slate-800 dark:text-slate-200"
        font := .str "font-sans"
        fontSize := .str "text-lg" }

/-- The older restore's JSON handling (src/unnamed/part_001 lines
726-784 and src/App.tsx lines 570-630): non-array fails, an empty array
succeeds with the empty list, a native-shaped first element selects
variant A, a `note_id`/`text` first element selects variant B, anything
else is unsupported. -/
def part001JsonImport (dp : String → Option Int) (now : Int) (j : Json) :
    Except String (List RawNote) :=
  match j with
  | .arr [] => .ok []
  | .arr (first :: rest) => do
    let hasId ← jsHasKey first "id"
    let hasContent ← jsHasKey first "content"
    let hasCreatedAt ← jsHasKey first "createdAt"
    if hasId && hasContent && hasCreatedAt then
      (first :: rest).mapM restoreMapA
    else
      let hasNoteId ← jsHasKey first "note_id"
      let hasText ← jsHasKey first "text"
      if hasNoteId && hasText then
        ((first :: rest).enum).mapM (fun p => part001MapB dp now p.1 p.2)
      else .error "サポートされていないバックアップファイル形式です。"
  | _ => .error "無効なファイル形式です: 配列ではありません。"

/-! ## Restore dispatchers -/

/-- Notes produced by a restore call: the JSON branches yield raw JS
note objects, the binary-backup branch yields pipeline notes. -/
inductive RestoreOutcome where
  | jsonNotes : List RawNote → RestoreOutcome
  | backupNotes : List JsNote → RestoreOutcome
deriving Repr

/-- `proceedWithRestore` of src/src/Settings.tsx (lines 463-503): empty
buffer fails, `.json` selects the JSON branch, `.mimibk`/`.db` select
`parseMimiNoteBackup`, anything else is
`サポートされていないファイル形式です。`. -/
def settingsProceedWithRestore (jsonParse : String → Except String Json)
    (synthJsonId : Nat → String)
    (inflate : List Nat → Option (List Nat))
    (openDb : List Nat → Except String SqlDb)
    (dp : String → Option Int) (now : Int)
    (synthId : Nat → JsNumber → String) (nowFn : Nat → Nat)
    (name : String) (buffer : List Nat) : Except String RestoreOutcome :=
  if buffer.length = 0 then .error "ファイルが空です。"
  else
    let fileName := strToLower name
    if strEndsWith fileName ".json" then
      (jsonParse (utf8DecodeModel buffer)).bind
        (fun j => (settingsJsonImport synthJsonId now j).map .jsonNotes)
    else if strEndsWith fileName ".mimibk" || strEndsWith fileName ".db" then
      (parseMimiNoteBackup inflate openDb dp now synthId nowFn buffer).map
        .backupNotes
    else .error "サポートされていないファイル形式です。"

/-- `proceedWithRestore` of src/src/App.tsx (lines 1052-1085); its
binary-backup parser (a distinct implementation) is abstracted as
`backupParse`. -/
def appProceedWithRestore (jsonParse : String → Except String Json)
    (backupParse : List Nat → Except String (List JsNote))
    (name : String) (buffer : List Nat) : Except String RestoreOutcome :=
  let fileName := strToLower name
  if strEndsWith fileName ".json" then
    (jsonParse (utf8DecodeModel buffer)).bind
      (fun j => (appJsonImport j).map .jsonNotes)
  else if strEndsWith fileName ".mimibk" || strEndsWith fileName ".db" then
    (backupParse buffer).map .backupNotes
  else .error "サポートされていないファイル形式です。"

/-- First-occurrence `String.prototype.replace` with single-character
arguments (the source only replaces the first space by `T`). -/
def replaceFirstCharAux (pat rep : Char) : List Char → List Char
  | [] => []
  | c :: cs => if c = pat then rep :: cs else c :: replaceFirstCharAux pat rep cs

def replaceFirstChar (s : String) (pat rep : Char) : String :=
  String.mk (replaceFirstCharAux pat rep s.toList)

/-- `parseDateString` of the src/src/App.tsx database strategy (lines
149-154): non-strings and falsy values give `Date.now()`; otherwise the
first space is normalized to `T` before parsing, and a `NaN` parse
result again gives `Date.now()`.  The result is never `NaN`. -/
def parseDateString (dp : String → Option Int) (now : Int) :
    SqlValue → JsNumber
  | .textV s =>
    if s == "" then some now
    else
      match dp (replaceFirstChar s ' ' 'T') with
      | none => some now
      | some t => some t
  | _ => some now

/-! ## Modelled external primitives: `JSON.parse` and `Date` parsing

Both are JS builtins the pipeline treats as library dependencies.  The
models below cover the grammar fragments the backup formats use (JSON
with integer numbers; ISO-like `YYYY-MM-DD[Thh:mm:ss]` dates), and
reject everything else, as the builtins reject malformed input. -/

/-- JSON whitespace. -/
def isJsonWs (c : Char) : Bool :=
  c == ' ' || c == '\t' || c == '\n' || c == '\x0d'

def skipJsonWs : List Char → List Char
  | [] => []
  | c :: cs => if isJsonWs c then skipJsonWs cs else c :: cs

/-- JSON string body after the opening quote: decoded characters plus
the text after the closing quote. -/
def parseStrBody : List Char → Option (List Char × List Char)
  | [] => none
  | '"' :: rest => some ([], rest)
  | '\\' :: esc =>
    (match esc with
     | '"' :: rest => (parseStrBody rest).map (fun p => ('"' :: p.1, p.2))
     | '\\' :: rest => (parseStrBody rest).map (fun p => ('\\' :: p.1, p.2))
     | '/' :: rest => (parseStrBody rest).map (fun p => ('/' :: p.1, p.2))
     | 'b' :: rest => (parseStrBody rest).map (fun p => ('\x08' :: p.1, p.2))
     | 'f' :: rest => (parseStrBody rest).map (fun p => ('\x0c' :: p.1, p.2))
     | 'n' :: rest => (parseStrBody rest).map (fun p => ('\n' :: p.1, p.2))
     | 'r' :: rest => (parseStrBody rest).map (fun p => ('\x0d' :: p.1, p.2))
     | 't' :: rest => (parseStrBody rest).map (fun p => ('\t' :: p.1, p.2))
     | 'u' :: h1 :: h2 :: h3 :: h4 :: rest =>
       (match hexVal h1, hexVal h2, hexVal h3, hexVal h4 with
        | some a, some b, some c, some d =>
          (parseStrBody rest).map
            (fun p => (Char.ofNat (((a * 16 + b) * 16 + c) * 16 + d)
              :: p.1, p.2))
        | _, _, _, _ => none)
     | _ => none)
  | c :: rest =>
    if c.toNat < 0x20 then none
    else (parseStrBody rest).map (fun p => (c :: p.1, p.2))

def takeDigits : List Char → List Char × List Char
  | [] => ([], [])
  | c :: rest =>
    if c.isDigit then
      let p := takeDigits rest
      (c :: p.1, p.2)
    else ([], c :: rest)

def digitsToNat (ds : List Char) : Nat :=
  ds.foldl (fun a c => a * 10 + (c.toNat - 48)) 0

mutual

def parseJsonVal : Nat → List Char → Option (Json × List Char)
  | 0, _ => none
  | fuel + 1, cs =>
    match skipJsonWs cs with
    | '{' :: rest =>
      (match skipJsonWs rest with
       | '}' :: r2 => some (.obj [], r2)
       | r => (parseObjFields fuel r).map (fun p => (.obj p.1, p.2)))
    | '[' :: rest =>
      (match skipJsonWs rest with
       | ']' :: r2 => some (.arr [], r2)
       | r => (parseArrElems fuel r).map (fun p => (.arr p.1, p.2)))
    | '"' :: rest =>
      (parseStrBody rest).map (fun p => (.str (String.mk p.1), p.2))
    | 't' :: 'r' :: 'u' :: 'e' :: rest => some (.boolean true, rest)
    | 'f' :: 'a' :: 'l' :: 's' :: 'e' :: rest => some (.boolean false, rest)
    | 'n' :: 'u' :: 'l' :: 'l' :: rest => some (.null, rest)
    | '-' :: rest =>
      (match takeDigits rest with
       | ([], _) => none
       | (ds, r) => some (.num (-(digitsToNat ds : Int)), r))
    | c :: rest =>
      if c.isDigit then
        (match takeDigits (c :: rest) with
         | (ds, r) => some (.num (digitsToNat ds), r))
      else none
    | [] => none

def parseArrElems : Nat → List Char → Option (List Json × List Char)
  | 0, _ => none
  | fuel + 1, cs =>
    match parseJsonVal fuel cs with
    | none => none
    | some (v, r) =>
      match skipJsonWs r with
      | ',' :: r2 => (parseArrElems fuel r2).map (fun p => (v :: p.1, p.2))
      | ']' :: r2 => some ([v], r2)
      | _ => none

def parseObjFields : Nat → List Char →
    Option (List (String × Json) × List Char)
  | 0, _ => none
  | fuel + 1, cs =>
    match skipJsonWs cs with
    | '"' :: rest =>
      (match parseStrBody rest with
       | none => none
       | some (key, r) =>
         match skipJsonWs r with
         | ':' :: r2 =>
           (match parseJsonVal fuel r2 with
            | none => none
            | some (v, r3) =>
              match skipJsonWs r3 with
              | ',' :: r4 => (parseObjFields fuel r4).map
                  (fun p => ((String.mk key, v) :: p.1, p.2))
              | '}' :: r4 => some ([(String.mk key, v)], r4)
              | _ => none)
         | _ => none)
    | _ => none

end

/-- Modelled `JSON.parse`: parse one value and require only trailing
whitespace; failures model the thrown `SyntaxError`. -/
def jsonParseModel (s : String) : Except String Json :=
  let cs := s.toList
  match parseJsonVal (2 * cs.length + 4) cs with
  | some (j, rest) =>
    if skipJsonWs rest = [] then .ok j
    else .error "SyntaxError: Unexpected token"
  | none => .error "SyntaxError: Unexpected token"

/-- Modelled `Date` string parser: recognizes `YYYY-MM-DD`, optionally
followed by a `T⋯` time part, and rejects everything else (JS gives
`NaN` for strings like `"garbage"`).  The epoch encoding is schematic;
no claim depends on the numeric value of a successful parse. -/
def jsDateParseModel (s : String) : Option Int :=
  match s.toList with
  | y1 :: y2 :: y3 :: y4 :: '-' :: m1 :: m2 :: '-' :: d1 :: d2 :: rest =>
    if ([y1, y2, y3, y4, m1, m2, d1, d2].all Char.isDigit)
        && (rest.isEmpty || rest.head? == some 'T') then
      some (((digitsToNat [y1, y2, y3, y4] * 10000
        + digitsToNat [m1, m2] * 100 + digitsToNat [d1, d2] : Nat) : Int)
        * 86400000)
    else none
  | _ => none

/-! ## Claim theorems: pipeline -/

/-- **C8** (decompression probe totality and pass-through).  A buffer of
length ≤ 2, or not starting with `0x78`, passes through unchanged; a
`0x78`-headed buffer that is not valid zlib (the inflate primitive
fails) also passes through, no exception escapes (the probe is total by
construction), and the whole parse then behaves as if no decompression
were attempted. -/
theorem decompress_probe_passthrough
    (inflate : List Nat → Option (List Nat))
    (openDb : List Nat → Except String SqlDb)
    (dp : String → Option Int) (now : Int)
    (synthId : Nat → JsNumber → String) (nowFn : Nat → Nat)
    (bytes : List Nat) :
    (bytes.length ≤ 2 ∨ bytes.head? ≠ some 0x78 →
      decompressProbe inflate bytes = bytes) ∧
    (inflate bytes = none → decompressProbe inflate bytes = bytes) ∧
    (inflate bytes = none →
      parseMimiNoteBackup inflate openDb dp now synthId nowFn bytes
        = parseMimiNoteBackup (fun _ => none) openDb dp now synthId nowFn
            bytes) := by
  have hfail : inflate bytes = none → decompressProbe inflate bytes = bytes := by
    intro hinf
    unfold decompressProbe
    by_cases hc : bytes.length > 2 ∧ bytes.head? = some 0x78
    · rw [if_pos hc, hinf]
    · rw [if_neg hc]
  refine ⟨?_, hfail, ?_⟩
  · intro h
    unfold decompressProbe
    rw [if_neg]
    intro hc
    rcases h with h | h
    · omega
    · exact h hc.2
  · intro hinf
    unfold parseMimiNoteBackup
    rw [hfail hinf]
    rw [show decompressProbe (fun _ => none) bytes = bytes from by
      unfold decompressProbe
      by_cases hc : bytes.length > 2 ∧ bytes.head? = some 0x78
      · rw [if_pos hc]
      · rw [if_neg hc]]

/-- Witness for C8 at the concrete buffer `[0x78, 0x01, 0x02]` with a
failing inflate primitive. -/
theorem decompress_probe_passthrough_witness :
    ((([] : List Nat).length ≤ 2 ∨ ([] : List Nat).head? ≠ some 0x78) ∧
      decompressProbe (fun _ => none) [] = []) ∧
    ((fun _ : List Nat => (none : Option (List Nat))) [0x78, 1, 2] = none ∧
      decompressProbe (fun _ => none) [0x78, 1, 2] = [0x78, 1, 2]) := by
  refine ⟨⟨Or.inl (by decide), ?_⟩, ⟨rfl, ?_⟩⟩
  · exact (decompress_probe_passthrough (fun _ => none) (fun _ => .error "e")
      jsDateParseModel 0 (fun _ _ => "s") (fun _ => 0) []).1
      (Or.inl (by decide))
  · exact (decompress_probe_passthrough (fun _ => none) (fun _ => .error "e")
      jsDateParseModel 0 (fun _ _ => "s") (fun _ => 0) [0x78, 1, 2]).2.1 rfl

/-- **C9** (fallback chain).  Whenever the SQLite leg fails — including
failing the header check — the text extraction runs on the ORIGINAL
buffer (`utf8DecodeModel buffer`, not the possibly-inflated `bytes`); a
non-empty extraction is returned as the result, and an empty one fails
with a message referencing the original database error. -/
theorem fallback_chain (inflate : List Nat → Option (List Nat))
    (openDb : List Nat → Except String SqlDb)
    (dp : String → Option Int) (now : Int)
    (synthId : Nat → JsNumber → String) (nowFn : Nat → Nat)
    (buffer : List Nat) (e : String)
    (hne : buffer.length ≠ 0)
    (herr : sqliteAttempt openDb dp now synthId
      (decompressProbe inflate buffer) = .error e) :
    parseMimiNoteBackup inflate openDb dp now synthId nowFn buffer
      = (if (textExtraction nowFn (utf8DecodeModel buffer)).length > 0
         then .ok (textExtraction nowFn (utf8DecodeModel buffer))
         else .error ("DBの解析に失敗しました: " ++ e)) := by
  unfold parseMimiNoteBackup
  rw [if_neg hne]
  simp only [herr]

/-- Witness for C9: a `.mimibk`-style buffer that fails the SQLite
header check but contains a `"text": "hi"` fragment yields that note via
the text-extraction fallback. -/
theorem fallback_chain_witness :
    (strBytes "x\x7b\"text\": \"hi\"\x7d").length ≠ 0 ∧
    parseMimiNoteBackup (fun _ => none) (fun _ => .error "eng")
        jsDateParseModel 0 (fun _ _ => "synth") (fun _ => 0)
        (strBytes "x\x7b\"text\": \"hi\"\x7d")
      = .ok [mimiTextNote 0 "hi"] := by
  refine ⟨by decide, ?_⟩
  have h := fallback_chain (fun _ => none) (fun _ => .error "eng")
    jsDateParseModel 0 (fun _ _ => "synth") (fun _ => 0)
    (strBytes "x\x7b\"text\": \"hi\"\x7d") "SQLiteヘッダーが見つかりません。"
    (by decide) (by rfl)
  rw [h]
  rfl

/-- **C3, counterexample.**  In part_004's database strategy, a
present-but-unparseable `creation_date` yields `NaN` (`none`), not
"now": the claim's "finite, defaulting to now" fails on this row. -/
theorem mimi_unparseable_date_nan :
    (mimiRowToNote jsDateParseModel 1000 (fun _ _ => "synth") 0
      ["creation_date"] [SqlValue.textV "garbage"]).createdAt = none := by
  rfl

/-- **C3, amended.**  The `parseDateString` path (src/src/App.tsx
database strategy) always produces a finite timestamp and defaults
absent or unparseable dates to "now"; part_004's strategy defaults only
absent (falsy) dates to "now" (with `update_date` falling back to the
row's `createdAt`), while a truthy unparseable date there yields `NaN`
(the counterexample). -/
theorem parse_dates_amended (dp : String → Option Int) (now : Int)
    (v : SqlValue) (s : String) (synthId : Nat → JsNumber → String)
    (idx : Nat) (cols : List String) (row : List SqlValue)
    (hcre : sqlTruthy (rowLookup cols row "creation_date") = false)
    (hupd : sqlTruthy (rowLookup cols row "update_date") = false) :
    (parseDateString dp now v).isSome = true ∧
    (dp (replaceFirstChar s ' ' 'T') = none →
      parseDateString dp now (SqlValue.textV s) = some now) ∧
    (mimiRowToNote dp now synthId idx cols row).createdAt = some now ∧
    (mimiRowToNote dp now synthId idx cols row).updatedAt = some now := by
  refine ⟨?_, ?_, ?_, ?_⟩
  · cases v with
    | textV s' =>
      by_cases hs : s' == ""
      · simp [parseDateString, hs]
      · cases hdp : dp (replaceFirstChar s' ' ' 'T') <;>
          simp [parseDateString, hs, hdp]
    | nullV => simp [parseDateString]
    | intV i => simp [parseDateString]
  · intro hdp
    by_cases hs : s == ""
    · simp [parseDateString, hs]
    · simp [parseDateString, hs, hdp]
  · simp [mimiRowToNote, hcre]
  · simp [mimiRowToNote, hcre, hupd]

/-- Witness for the amended C3 at a concrete row with no date columns
and the concrete unparseable string `"garbage"`. -/
theorem parse_dates_amended_witness :
    sqlTruthy (rowLookup [] [] "creation_date") = false ∧
    sqlTruthy (rowLookup [] [] "update_date") = false ∧
    ((parseDateString jsDateParseModel 5 (SqlValue.intV 3)).isSome = true ∧
     (jsDateParseModel (replaceFirstChar "garbage" ' ' 'T') = none →
       parseDateString jsDateParseModel 5 (SqlValue.textV "garbage")
         = some 5) ∧
     (mimiRowToNote jsDateParseModel 5 (fun _ _ => "s") 0 [] []).createdAt
       = some 5 ∧
     (mimiRowToNote jsDateParseModel 5 (fun _ _ => "s") 0 [] []).updatedAt
       = some 5) :=
  ⟨by decide, by decide,
    parse_dates_amended jsDateParseModel 5 (SqlValue.intV 3) "garbage"
      (fun _ _ => "s") 0 [] [] (by decide) (by decide)⟩

/-- **C4, counterexample.**  The src/src/App.tsx restore path rejects an
imported `[]` JSON buffer as an invalid format instead of succeeding
with the empty list. -/
theorem empty_array_app_rejected :
    appProceedWithRestore jsonParseModel (fun _ => .error "unused")
        "backup.json" (strBytes "[]")
      = .error "無効なJSONファイル形式です。" := by
  rfl

/-- **C4, amended.**  An imported `[]` JSON buffer succeeds with the
empty note list in the src/src/Settings.tsx restore path (and in the
older part_001 restore); the src/src/App.tsx path instead fails (the
counterexample). -/
theorem empty_array_amended :
    settingsProceedWithRestore jsonParseModel (fun _ => "id")
        (fun _ => none) (fun _ => .error "no db") jsDateParseModel 0
        (fun _ _ => "s") (fun _ => 0) "backup.json" (strBytes "[]")
      = .ok (.jsonNotes []) ∧
    part001JsonImport jsDateParseModel 0 (Json.arr []) = .ok [] := by
  exact ⟨rfl, rfl⟩

/-- **C5, counterexample.**  A `.sqlite` file whose content begins with
a valid SQLite header is rejected as `UnsupportedFormat` by the restore
dispatcher without any content sniffing — the claim's routing of
`.sqlite`/`.sqlite3`/extension-less names to header sniffing does not
exist in the code. -/
theorem sqlite_ext_unsupported :
    settingsProceedWithRestore jsonParseModel (fun _ => "id")
        (fun _ => none) (fun _ => .error "e") jsDateParseModel 0
        (fun _ _ => "s") (fun _ => 0) "backup.sqlite"
        (strBytes "SQLite format 3" ++ [0])
      = .error "サポートされていないファイル形式です。" := by
  rfl

/-- **C5, amended.**  The restore dispatcher recognizes only `.json`
(JSON strategy) and `.mimibk`/`.db` (backup parser); every other
filename — `.sqlite`, `.sqlite3`, extension-less — fails with
`サポートされていないファイル形式です。` without inspecting the
content.  Inside the backup parser, the first 16 bytes select the
database strategy exactly when they begin with `SQLite format 3`, and
otherwise fail the SQLite leg (which triggers the text-extraction
strategy by C9's fallback). -/
theorem dispatch_amended (jsonParse : String → Except String Json)
    (synthJsonId : Nat → String) (inflate : List Nat → Option (List Nat))
    (openDb : List Nat → Except String SqlDb)
    (dp : String → Option Int) (now : Int)
    (synthId : Nat → JsNumber → String) (nowFn : Nat → Nat)
    (name : String) (buffer bytes : List Nat)
    (hjson : strEndsWith (strToLower name) ".json" = false)
    (hmimibk : strEndsWith (strToLower name) ".mimibk" = false)
    (hdb : strEndsWith (strToLower name) ".db" = false)
    (hne : buffer.length ≠ 0) :
    settingsProceedWithRestore jsonParse synthJsonId inflate openDb dp now
        synthId nowFn name buffer
      = .error "サポートされていないファイル形式です。" ∧
    (isSqliteHeader bytes = false →
      sqliteAttempt openDb dp now synthId bytes
        = .error "SQLiteヘッダーが見つかりません。") ∧
    (isSqliteHeader bytes = true →
      sqliteAttempt openDb dp now synthId bytes
        = (match openDb bytes with
           | .error e => .error e
           | .ok db => dbToNotes dp now synthId db)) := by
  refine ⟨?_, ?_, ?_⟩
  · unfold settingsProceedWithRestore
    rw [if_neg hne]
    simp [hjson, hmimibk, hdb]
  · intro h
    unfold sqliteAttempt
    rw [h]
    rfl
  · intro h
    unfold sqliteAttempt
    rw [h]
    rfl

/-- Witness for the amended C5 at the concrete name `backup.sqlite` with
a SQLite-headed buffer (routing to the engine) and a non-SQLite byte
buffer (header-check failure). -/
theorem dispatch_amended_witness :
    strEndsWith (strToLower "backup.sqlite") ".json" = false ∧
    strEndsWith (strToLower "backup.sqlite") ".mimibk" = false ∧
    strEndsWith (strToLower "backup.sqlite") ".db" = false ∧
    (strBytes "SQLite format 3" ++ [0]).length ≠ 0 ∧
    (settingsProceedWithRestore jsonParseModel (fun _ => "id")
        (fun _ => none) (fun _ => .error "e") jsDateParseModel 0
        (fun _ _ => "s") (fun _ => 0) "backup.sqlite"
        (strBytes "SQLite format 3" ++ [0])
      = .error "サポートされていないファイル形式です。" ∧
     (isSqliteHeader [0, 1, 2] = false →
       sqliteAttempt (fun _ => .error "e") jsDateParseModel 0
         (fun _ _ => "s") [0, 1, 2]
         = .error "SQLiteヘッダーが見つかりません。")) := by
  refine ⟨by decide, by decide, by decide, by decide, ?_⟩
  have h := dispatch_amended jsonParseModel (fun _ => "id") (fun _ => none)
    (fun _ => .error "e") jsDateParseModel 0 (fun _ _ => "s") (fun _ => 0)
    "backup.sqlite" (strBytes "SQLite format 3" ++ [0]) [0, 1, 2]
    (by decide) (by decide) (by decide) (by decide)
  exact ⟨h.1, h.2.1⟩

/-- **C6, counterexample.**  The current JSON branch
(src/src/Settings.tsx; src/src/App.tsx behaves the same) rejects a
legacy variant-B array — first element with `note_id`/`text` and no
`content` — as an invalid JSON format instead of mapping it. -/
theorem variantB_current_rejected :
    settingsJsonImport (fun _ => "id") 0
        (Json.arr [Json.obj [("note_id", Json.num 1),
          ("text", Json.str "hi")]])
      = .error "無効なJSONファイル形式です。" := by
  rfl

/-- **C6, amended.**  The variant-B mapping exists only in the older
restore (src/unnamed/part_001; src/App.tsx lacks its `fontSize`
default): there, an array whose first element fails the native-shape
check but has `note_id` and `text` is routed to the variant-B mapper,
and on each object element that mapper produces a note with
`note_id → id` (stringified; an absent/falsy `note_id` falls back to the
raw parsed `created_at` value), `text → content`, `pinned → isPinned`,
and all three presentation fields forced to the documented defaults. -/
theorem variantB_amended (dp : String → Option Int) (now : Int)
    (first : Json) (rest : List Json) (bId bC bCr : Bool) (idx : Nat)
    (fs : List (String × Json)) (nid txt pin cre upd : Json)
    (hId : jsHasKey first "id" = .ok bId)
    (hC : jsHasKey first "content" = .ok bC)
    (hCr : jsHasKey first "createdAt" = .ok bCr)
    (hnotA : (bId && bC && bCr) = false)
    (hNid : jsHasKey first "note_id" = .ok true)
    (hTxt : jsHasKey first "text" = .ok true)
    (hnid : jsGet (.obj fs) "note_id" = .ok nid)
    (htxt : jsGet (.obj fs) "text" = .ok txt)
    (hpin : jsGet (.obj fs) "pinned" = .ok pin)
    (hcre : jsGet (.obj fs) "created_at" = .ok cre)
    (hupd : jsGet (.obj fs) "updated_at" = .ok upd) :
    part001JsonImport dp now (.arr (first :: rest))
      = ((first :: rest).enum).mapM (fun p => part001MapB dp now p.1 p.2)
    ∧ part001MapB dp now idx (.obj fs) = .ok
        { id := .str (if jsTruthy nid then jsStringOfJson nid
                      else jsNumberToString (if jsTruthy cre
                        then jsDateOfJson dp cre else some (now - idx)))
          content := .str (if jsTruthy txt then jsStringOfJson txt else "")
          createdAt := .num (match (if jsTruthy cre
            then jsDateOfJson dp cre else some (now - idx)) with
            | some t => t
            | none => now - idx)
          updatedAt := .num (match (if jsTruthy upd
            then jsDateOfJson dp upd else some (now - idx)) with
            | some t => t
            | none => now - idx)
          isPinned := .boolean (jsTruthy pin)
          color := .str "text-slate-800 dark:text-slate-200"
          font := .str "font-sans"
          fontSize := .str "text-lg" } := by
  constructor
  · simp [part001JsonImport, hId, hC, hCr, hNid, hTxt, hnotA,
      bind, Except.bind]
  · simp only [jsGet, Except.ok.injEq] at hnid htxt hpin hcre hupd
    simp only [part001MapB, jsGet, bind, Except.bind, Except.ok.injEq]
    rw [hnid, htxt, hpin, hcre, hupd]

/-- Witness for the amended C6: the one-element variant-B array
`[{"note_id": 1, "text": "hi"}]` is routed to the variant-B mapper, and
that mapper yields a note with id `"1"`, content `"hi"`, `isPinned`
false, and the documented presentation defaults. -/
theorem variantB_amended_witness :
    part001JsonImport jsDateParseModel 7
        (Json.arr [Json.obj [("note_id", Json.num 1),
          ("text", Json.str "hi")]])
      = (([Json.obj [("note_id", Json.num 1),
            ("text", Json.str "hi")]].enum).mapM
          (fun p => part001MapB jsDateParseModel 7 p.1 p.2))
    ∧ part001MapB jsDateParseModel 7 0
        (Json.obj [("note_id", Json.num 1), ("text", Json.str "hi")])
      = .ok { id := .str "1", content := .str "hi",
              createdAt := .num 7, updatedAt := .num 7,
              isPinned := .boolean false,
              color := .str "text-slate-800 dark:text-slate-200",
              font := .str "font-sans", fontSize := .str "text-lg" } :=
  variantB_amended jsDateParseModel 7
    (Json.obj [("note_id", Json.num 1), ("text", Json.str "hi")]) []
    false false false 0
    [("note_id", Json.num 1), ("text", Json.str "hi")]
    (Json.num 1) (Json.str "hi") Json.undefinedV Json.undefinedV Json.undefinedV
    (by rfl) (by rfl) (by rfl) (by rfl) (by rfl) (by rfl)
    (by rfl) (by rfl) (by rfl) (by rfl) (by rfl)

/-- **C7, counterexample.**  The database strategy takes ids verbatim
from a truthy `_id` column: a table whose two rows both have `_id = 1`
produces two notes with the same id `"1"` in one import batch. -/
theorem duplicate_ids_db :
    (parseMimiNoteBackup (fun _ => none)
        (fun _ => .ok ⟨[("NOTE_TB", ⟨["_id", "text"],
          [[SqlValue.intV 1, SqlValue.textV "a"],
           [SqlValue.intV 1, SqlValue.textV "b"]]⟩)]⟩)
        jsDateParseModel 0 (fun _ _ => "synth") (fun _ => 0)
        (strBytes "SQLite format 3" ++ [0])).map
      (fun notes => notes.map JsNote.id)
      = .ok ["1", "1"] := by
  rfl

/-! ### Injectivity of the decimal id model -/

theorem digitsToNat_foldl (cs : List Char) (a : Nat) :
    cs.foldl (fun a c => a * 10 + (c.toNat - 48)) a
      = a * 10 ^ cs.length + digitsToNat cs := by
  induction cs generalizing a with
  | nil => simp [digitsToNat]
  | cons c cs ih =>
    rw [List.foldl_cons, ih (a * 10 + (c.toNat - 48))]
    have h2 : digitsToNat (c :: cs)
        = (c.toNat - 48) * 10 ^ cs.length + digitsToNat cs := by
      unfold digitsToNat
      rw [List.foldl_cons]
      have := ih (0 * 10 + (c.toNat - 48))
      simpa using this
    rw [h2, List.length_cons, pow_succ]
    ring

theorem digitChar_val (n : Nat) (h : n < 10) :
    (digitChar n).toNat - 48 = n := by
  interval_cases n <;> rfl

theorem digitsToNat_cons (c : Char) (cs : List Char) :
    digitsToNat (c :: cs)
      = (c.toNat - 48) * 10 ^ cs.length + digitsToNat cs := by
  unfold digitsToNat
  rw [List.foldl_cons, digitsToNat_foldl]
  simp [digitsToNat]

theorem digitsToNat_natDecimalAux : ∀ (n : Nat) (acc : List Char),
    digitsToNat (natDecimalAux n acc)
      = n * 10 ^ acc.length + digitsToNat acc := by
  intro n
  induction n using Nat.strong_induction_on with
  | _ n ih =>
    intro acc
    unfold natDecimalAux
    by_cases h : n < 10
    · rw [dif_pos h, digitsToNat_cons, digitChar_val n h]
    · rw [dif_neg h]
      rw [ih (n / 10) (Nat.div_lt_self (by omega) (by omega))]
      rw [digitsToNat_cons, digitChar_val (n % 10) (Nat.mod_lt _ (by omega))]
      rw [List.length_cons, pow_succ]
      have hexp : n / 10 * (10 ^ acc.length * 10)
          + ((n % 10) * 10 ^ acc.length + digitsToNat acc)
          = (10 * (n / 10) + n % 10) * 10 ^ acc.length + digitsToNat acc := by
        ring
      rw [hexp, Nat.div_add_mod]

theorem digitsToNat_natDecimal (n : Nat) :
    digitsToNat (natDecimalAux n []) = n := by
  rw [digitsToNat_natDecimalAux]
  simp [digitsToNat]

theorem natDecimal_injective : Function.Injective natDecimal := by
  intro a b h
  have hd : natDecimalAux a [] = natDecimalAux b [] := by
    have := congrArg String.data h
    simpa [natDecimal] using this
  have hv := congrArg digitsToNat hd
  rwa [digitsToNat_natDecimal, digitsToNat_natDecimal] at hv

/-! ### Distinctness of the text-extraction ids -/

theorem textNotesLoop_mem (nowFn : Nat → Nat) (caps : List (List Char)) :
    ∀ (i : Nat) (x : JsNote), x ∈ textNotesLoop nowFn caps i →
      ∃ (j : Nat) (s : String), i ≤ j ∧ x = mimiTextNote (nowFn j + j) s := by
  induction caps with
  | nil => intro i x hx; cases hx
  | cons cap rest ih =>
    intro i x hx
    cases hu : jsonUnescapeChars cap with
    | none =>
      rw [textNotesLoop, hu] at hx
      exact ih i x hx
    | some content =>
      rw [textNotesLoop, hu] at hx
      dsimp only at hx
      by_cases hk : String.mk content ≠ "" ∧ jsTrim (String.mk content) ≠ ""
      · rw [if_pos hk] at hx
        rcases List.mem_cons.mp hx with h | h
        · exact ⟨i, String.mk content, le_refl i, h⟩
        · obtain ⟨j, s, hj, he⟩ := ih (i + 1) x h
          exact ⟨j, s, by omega, he⟩
      · rw [if_neg hk] at hx
        exact ih i x hx

theorem textNotesLoop_pairwise (nowFn : Nat → Nat)
    (hmono : ∀ a b : Nat, a ≤ b → nowFn a ≤ nowFn b)
    (caps : List (List Char)) :
    ∀ i : Nat, (textNotesLoop nowFn caps i).Pairwise
      (fun x y => x.id ≠ y.id) := by
  induction caps with
  | nil => intro i; exact List.Pairwise.nil
  | cons cap rest ih =>
    intro i
    cases hu : jsonUnescapeChars cap with
    | none =>
      rw [textNotesLoop, hu]
      exact ih i
    | some content =>
      rw [textNotesLoop, hu]
      dsimp only
      by_cases hk : String.mk content ≠ "" ∧ jsTrim (String.mk content) ≠ ""
      · rw [if_pos hk]
        refine List.Pairwise.cons ?_ (ih (i + 1))
        intro y hy heq
        obtain ⟨j, s, hj, he⟩ := textNotesLoop_mem nowFn rest (i + 1) y hy
        rw [he] at heq
        have hsum : nowFn i + i = nowFn j + j :=
          natDecimal_injective heq
        have hmono' := hmono i j (by omega)
        omega
      · rw [if_neg hk]
        exact ih i

/-- **C7, amended.**  The text-extraction fallback guarantees
pairwise-distinct ids (strictly increasing `Date.now() + i++` values,
shown for any non-decreasing clock); the database strategy does NOT — it
copies a truthy `_id` verbatim, so duplicate `_id` values yield
duplicate ids (the counterexample), with jitter applied only to rows
without a truthy `_id`. -/
theorem text_ids_distinct (nowFn : Nat → Nat)
    (hmono : ∀ a b : Nat, a ≤ b → nowFn a ≤ nowFn b) (text : String) :
    (textExtraction nowFn text).Pairwise (fun x y => x.id ≠ y.id) := by
  unfold textExtraction
  exact textNotesLoop_pairwise nowFn hmono _ 0

/-- Witness for the amended C7: a constant clock satisfies the
non-decreasing hypothesis, and extraction from a two-fragment text
yields notes with pairwise-distinct ids. -/
theorem text_ids_distinct_witness :
    (∀ a b : Nat, a ≤ b → (100 : Nat) ≤ 100) ∧
    (textExtraction (fun _ => 100)
      "\"text\": \"a\" \"text\": \"b\"").Pairwise
        (fun x y => x.id ≠ y.id) :=
  ⟨fun _ _ _ => le_refl 100,
    text_ids_distinct (fun _ => 100) (fun _ _ _ => le_refl 100)
      "\"text\": \"a\" \"text\": \"b\""⟩

end NanaMemo
